import Mathlib

/-!
Shallow embedding of the numerical control logic of the mixed-precision CG
solver in `lib/inv_cg_quda.cpp` (namespace `quda`, class `CG`), together with
theorems settling the claims about it.

Scalars of the C++ code (`double`) are idealized as rationals `ℚ`; complex
scalars (`Complex` = `std::complex<double>`) as pairs of rationals; vector
fields (`ColorSpinorField`) as lists of complex components, on which the BLAS
kernels used by the solver act pointwise.  Occurrences of `sqrt` in the source
are embedded through an explicit function parameter `sqrtFn : ℚ → ℚ`, since
every claim below concerns the control flow around the square roots and not
the analytic properties of the square root itself; concrete instances use
`Rat.sqrt`, which is exact on perfect squares.
-/

set_option linter.unusedVariables false

/-- A complex scalar: real and imaginary part, both rational. -/
abbrev QC : Type := ℚ × ℚ

/-- Complex addition, componentwise. -/
def addQ (x y : QC) : QC := (x.1 + y.1, x.2 + y.2)

/-- Complex multiplication. -/
def cmulQ (x y : QC) : QC := (x.1 * y.1 - x.2 * y.2, x.1 * y.2 + x.2 * y.1)

/-- Complex conjugation. -/
def conjQ (x : QC) : QC := (x.1, -x.2)

/-- Complex negation. -/
def negQ (x : QC) : QC := (-x.1, -x.2)

/-- Division of a complex scalar by a real scalar. -/
def divrQ (x : QC) (r : ℚ) : QC := (x.1 / r, x.2 / r)

/-- Scaling of a complex scalar by a real scalar. -/
def smulQ (a : ℚ) (x : QC) : QC := (a * x.1, a * x.2)

/-- A vector field: a finite list of complex components. -/
abbrev Vec : Type := List QC

/-- `blas::norm2`: squared L2 norm of a field. -/
def norm2 (v : Vec) : ℚ := (v.map fun z => z.1 ^ 2 + z.2 ^ 2).sum

/-- `blas::cDotProduct(x, y)` = `⟨x, y⟩` with conjugation on the first slot. -/
def cDotProduct (x y : Vec) : QC :=
  (List.zipWith (fun a b => cmulQ (conjQ a) b) x y).foldl addQ (0, 0)

/-- `blas::caxpy(a, x, y)`: `y ← y + a·x`. -/
def caxpy (a : QC) (x y : Vec) : Vec :=
  List.zipWith (fun xi yi => addQ yi (cmulQ a xi)) x y

/-- `blas::xpay(x, b, y)`: `y ← x + b·y`. -/
def xpay (x : Vec) (b : ℚ) (y : Vec) : Vec :=
  List.zipWith (fun xi yi => addQ xi (smulQ b yi)) x y

/-- Componentwise difference of fields, `x − y`. -/
def subVec (x y : Vec) : Vec :=
  List.zipWith (fun xi yi => (xi.1 - yi.1, xi.2 - yi.2)) x y

section SingleRhs

/-!
### Single-RHS path: per-iteration scalar updates (`CG::operator()`)
-/

/-- Embedding of the scalar part of the non-pipelined loop body,
`inv_cg_quda.cpp` lines 304-323: save `r2_old`, form `alpha = r2 / pAp`,
read the fused `axpyCGNorm` result `cg_norm` (whose real part is
`⟨r_new, r_new⟩` and whose imaginary part is `⟨r_new, r_new − r_old⟩`),
set the new `r2` to its real part, and set
`sigma = imag(cg_norm) >= 0.0 ? imag(cg_norm) : r2`.
The result is the tuple `(r2_old, alpha, r2, sigma)`. -/
def cgStepScalars (r2 pAp : ℚ) (cg_norm : QC) : ℚ × ℚ × ℚ × ℚ :=
  let r2_old := r2
  let alpha := r2 / pAp
  let r2 := cg_norm.1
  let sigma := if cg_norm.2 ≥ 0 then cg_norm.2 else r2
  (r2_old, alpha, r2, sigma)

/-- Embedding of the classical (non-alternative) reliable-update trigger,
`inv_cg_quda.cpp` lines 326 and 338-343: `rNorm = sqrt(r2)`; raise `maxrx`
and `maxrr` to `rNorm` if exceeded; then
`updateX = (rNorm < delta*r0Norm && r0Norm <= maxrx)` and
`updateR = ((rNorm < delta*maxrr && r0Norm <= maxrr) || updateX)`.
The result is `((rNorm, maxrx, maxrr), (updateX, updateR))`. -/
def reliableFlags (sqrtFn : ℚ → ℚ) (delta r2 r0Norm maxrx maxrr : ℚ) :
    (ℚ × ℚ × ℚ) × (Bool × Bool) :=
  let rNorm := sqrtFn r2
  let maxrx := if rNorm > maxrx then rNorm else maxrx
  let maxrr := if rNorm > maxrr then rNorm else maxrr
  let updateX : Bool := decide (rNorm < delta * r0Norm ∧ r0Norm ≤ maxrx)
  let updateR : Bool := decide (rNorm < delta * maxrr ∧ r0Norm ≤ maxrr) || updateX
  ((rNorm, maxrx, maxrr), (updateX, updateR))

end SingleRhs

section BlockPath

/-!
### Block path: reliable-update test (`CG::block_reliable`)
-/

/-- Embedding of `CG::block_reliable`, `inv_cg_quda.cpp` lines 679-691:
`rNorm = sqrt(r2)` (overwriting the by-reference argument); raise `maxrx`
and `maxrr`; return `updateR = (rNorm < delta*maxrr)`.  The `r0Norm`
comparisons present in the single-RHS test are commented out in the source.
The result is `((rNorm, maxrx, maxrr), updateR)`. -/
def block_reliable (sqrtFn : ℚ → ℚ) (rNorm maxrx maxrr r2 delta : ℚ) :
    (ℚ × ℚ × ℚ) × Bool :=
  let rNorm := sqrtFn r2
  let maxrx := if rNorm > maxrx then rNorm else maxrx
  let maxrr := if rNorm > maxrr then rNorm else maxrr
  ((rNorm, maxrx, maxrr), decide (rNorm < delta * maxrr))

end BlockPath

/-- C5: in the single-RHS classical reliable-update policy, after `rNorm` is
set to `√r2` and `maxrx`, `maxrr` are raised to at least `rNorm`, the flags
satisfy `updateX = (rNorm < delta·r0Norm) ∧ (r0Norm ≤ maxrx)` and
`updateR = ((rNorm < delta·maxrr) ∧ (r0Norm ≤ maxrr)) ∨ updateX`, where
`maxrx`, `maxrr` denote the raised values. -/
theorem C5_classical_trigger (sqrtFn : ℚ → ℚ) (delta r2 r0Norm maxrx maxrr : ℚ) :
    (reliableFlags sqrtFn delta r2 r0Norm maxrx maxrr).1.1 = sqrtFn r2 ∧
    (reliableFlags sqrtFn delta r2 r0Norm maxrx maxrr).1.2.1 = max maxrx (sqrtFn r2) ∧
    (reliableFlags sqrtFn delta r2 r0Norm maxrx maxrr).1.2.2 = max maxrr (sqrtFn r2) ∧
    ((reliableFlags sqrtFn delta r2 r0Norm maxrx maxrr).2.1 = true ↔
      (sqrtFn r2 < delta * r0Norm ∧
        r0Norm ≤ (reliableFlags sqrtFn delta r2 r0Norm maxrx maxrr).1.2.1)) ∧
    ((reliableFlags sqrtFn delta r2 r0Norm maxrx maxrr).2.2 = true ↔
      ((sqrtFn r2 < delta * (reliableFlags sqrtFn delta r2 r0Norm maxrx maxrr).1.2.2 ∧
        r0Norm ≤ (reliableFlags sqrtFn delta r2 r0Norm maxrx maxrr).1.2.2) ∨
        (reliableFlags sqrtFn delta r2 r0Norm maxrx maxrr).2.1 = true)) := by
  have hx : (if sqrtFn r2 > maxrx then sqrtFn r2 else maxrx) = max maxrx (sqrtFn r2) := by
    rcases le_or_lt (sqrtFn r2) maxrx with h | h
    · simp [not_lt.mpr h, max_eq_left h]
    · simp [h, max_eq_right h.le]
  have hr : (if sqrtFn r2 > maxrr then sqrtFn r2 else maxrr) = max maxrr (sqrtFn r2) := by
    rcases le_or_lt (sqrtFn r2) maxrr with h | h
    · simp [not_lt.mpr h, max_eq_left h]
    · simp [h, max_eq_right h.le]
  refine ⟨rfl, ?_, ?_, ?_, ?_⟩
  · simpa [reliableFlags] using hx
  · simpa [reliableFlags] using hr
  · simp [reliableFlags]
  · simp [reliableFlags]

/-- C2 counterexample: with `cg_norm = (2, 1)` (so `r2_new = 2` and the
Polak-Ribière cross term is `1`), the code's `sigma` is `1`, which differs
from `max(⟨r_new, r_new − r_old⟩, r2_new) = max 1 2 = 2` as the claim states. -/
theorem C2_sigma_cex :
    (cgStepScalars 4 2 ((2 : ℚ), (1 : ℚ))).2.2.2 = 1 ∧
    max (1 : ℚ) 2 = 2 ∧
    (cgStepScalars 4 2 ((2 : ℚ), (1 : ℚ))).2.2.2 ≠ max (1 : ℚ) 2 := by
  refine ⟨by norm_num [cgStepScalars], by norm_num, by norm_num [cgStepScalars]⟩

/-- C2 (amended): after the fused `axpyCGNorm` update, `sigma` equals the
cross term `⟨r_new, r_new − r_old⟩` whenever that term is nonnegative, and
equals the new squared residual norm `⟨r_new, r_new⟩` otherwise; moreover
`r2_old` is saved from the incoming `r2` and `alpha = r2 / pAp`. -/
theorem C2_sigma_amended (r2 pAp : ℚ) (cg_norm : QC) :
    (0 ≤ cg_norm.2 → (cgStepScalars r2 pAp cg_norm).2.2.2 = cg_norm.2) ∧
    (cg_norm.2 < 0 → (cgStepScalars r2 pAp cg_norm).2.2.2 = cg_norm.1) ∧
    (cgStepScalars r2 pAp cg_norm).1 = r2 ∧
    (cgStepScalars r2 pAp cg_norm).2.1 = r2 / pAp := by
  refine ⟨fun h => by simp [cgStepScalars, h], fun h => by simp [cgStepScalars, not_le.mpr h],
    rfl, rfl⟩

/-- C2 witness: instantiating the amended theorem at `r2 = 4`, `pAp = 2`,
`cg_norm = (2, 1)` gives `sigma = 1`. -/
theorem C2_sigma_amended_witness :
    (0 : ℚ) ≤ 1 ∧ (cgStepScalars 4 2 ((2 : ℚ), (1 : ℚ))).2.2.2 = 1 :=
  ⟨by norm_num, (C2_sigma_amended 4 2 ((2 : ℚ), (1 : ℚ))).1 (by norm_num)⟩

/-- C3 counterexample: at aggregate `r2 = 1`, tracked `maxrx = maxrr = 10`,
`delta = 1/2` and `r0Norm = 100`, the block test fires (`1 < 5`), while the
single-RHS classical condition
`(rNorm < delta·maxrr ∧ r0Norm ≤ maxrr) ∨ (rNorm < delta·r0Norm ∧ r0Norm ≤ maxrx)`
(the `updateR` computed by `reliableFlags` at the same state) is false. -/
theorem C3_block_reliable_cex :
    (block_reliable Rat.sqrt 0 10 10 1 (1 / 2)).2 = true ∧
    (reliableFlags Rat.sqrt (1 / 2) 1 100 10 10).2.2 = false := by
  have h1 : Rat.sqrt 1 = 1 := by simp
  constructor
  · norm_num [block_reliable, h1]
  · norm_num [reliableFlags, h1]

/-- C3 (amended): the block reliable-update test triggers if and only if
`rNorm < delta·maxrr`, where `rNorm = √r2` and `maxrr` has been raised to at
least `rNorm`; the `r0Norm ≤ maxrr` guard and the `updateX` disjunct of the
single-RHS classical policy are absent from the block test. -/
theorem C3_block_reliable_amended (sqrtFn : ℚ → ℚ) (rNorm maxrx maxrr r2 delta : ℚ) :
    ((block_reliable sqrtFn rNorm maxrx maxrr r2 delta).2 = true ↔
      sqrtFn r2 < delta * max maxrr (sqrtFn r2)) ∧
    (block_reliable sqrtFn rNorm maxrx maxrr r2 delta).1.2.2 = max maxrr (sqrtFn r2) := by
  have hr : (if sqrtFn r2 > maxrr then sqrtFn r2 else maxrr) = max maxrr (sqrtFn r2) := by
    rcases le_or_lt (sqrtFn r2) maxrr with h | h
    · simp [not_lt.mpr h, max_eq_left h]
    · simp [h, max_eq_right h.le]
  constructor
  · simp [block_reliable, hr]
  · simpa [block_reliable] using hr

section ReliableBranch

/-!
### Single-RHS path: the reliable-update branch (`CG::operator()` lines 380-465)

The branch flushes the sloppy solution, recomputes the true residual
`r = b − A y` in reference precision and copies it to `rSloppy`; those field
kernels live outside the control loop, so the recomputed residual and its
squared norm enter the embedding as the inputs `rFresh` and `freshR2`
(and the heavy-quark kernel result as `hqNewZ`).  Everything from line 392 on
(the scalar bookkeeping, the residual-increase counters, the heavy-quark
breakdown handling and the update of the search direction `p`) is embedded
statement by statement, in source order, for the default (non-ALTRELIABLE)
compilation.  A C++ `break` is modelled by returning immediately with the
`brk` flag set, leaving the not-yet-executed updates undone.
-/

/-- Scalar/flag state of the single-RHS solver at the reliable-update branch. -/
structure RelSt where
  r2 : ℚ
  r2_old : ℚ
  rNorm : ℚ
  r0Norm : ℚ
  maxrx : ℚ
  maxrr : ℚ
  delta : ℚ
  resIncrease : ℤ
  resIncreaseTotal : ℤ
  hqresIncrease : ℤ
  heavy_quark_res : ℚ
  heavy_quark_res_old : ℚ
  L2breakdown : Bool
  heavy_quark_restart : Bool
  beta : ℚ
  rSloppy : Vec
  p : Vec
  steps_since_reliable : ℤ
  rUpdate : ℤ
  brk : Bool

/-- `maxResIncrease`, `inv_cg_quda.cpp` line 247: forced to `0` when the
heavy-quark residual is in use, otherwise `param.max_res_increase`. -/
def maxResIncreaseOf (use_hq : Bool) (param_max_res_increase : ℤ) : ℤ :=
  if use_hq then 0 else param_max_res_increase

/-- `hqmaxresIncrease`, `inv_cg_quda.cpp` line 251: `maxResIncrease + 1`. -/
def hqmaxresIncreaseOf (use_hq : Bool) (param_max_res_increase : ℤ) : ℤ :=
  maxResIncreaseOf use_hq param_max_res_increase + 1

/-- Embedding of the reliable-update branch, `inv_cg_quda.cpp` lines 380-465,
classical (non-ALTRELIABLE) path.  In source order: `r2 ← freshR2` (line 387),
`rSloppy ← rFresh` (line 389), `rNorm = maxrr = maxrx = r0Norm = sqrt(r2)`
(lines 403-406), heavy-quark residual refresh (line 411), the
residual-increase check (lines 414-429, with the possible `break` at 424),
the heavy-quark breakdown block (lines 430-444, with the possible `break` at
441), the `p` update (lines 448-459), and the epilogue
`steps_since_reliable = 0; rUpdate++; heavy_quark_res_old = heavy_quark_res`
(lines 461-464). -/
def reliableBranch (use_hq : Bool)
    (maxResIncrease maxResIncreaseTotal hqmaxresIncrease : ℤ)
    (sqrtFn : ℚ → ℚ) (updateX : Bool) (rFresh : Vec) (freshR2 hqNewZ : ℚ)
    (s : RelSt) : RelSt :=
  let r2 := freshR2
  let rSloppy := rFresh
  let rNorm := sqrtFn r2
  let maxrr := rNorm
  let maxrx := rNorm
  let r0Norm := rNorm
  let heavy_quark_res := if use_hq then sqrtFn hqNewZ else s.heavy_quark_res
  let t1 : ℤ × ℤ × Bool × Bool :=
    if sqrtFn r2 > r0Norm ∧ updateX = true then
      let resIncrease := s.resIncrease + 1
      let resIncreaseTotal := s.resIncreaseTotal + 1
      if resIncrease > maxResIncrease ∨ resIncreaseTotal > maxResIncreaseTotal then
        if use_hq then (resIncrease, resIncreaseTotal, true, false)
        else (resIncrease, resIncreaseTotal, s.L2breakdown, true)
      else (resIncrease, resIncreaseTotal, s.L2breakdown, false)
    else (0, s.resIncreaseTotal, s.L2breakdown, false)
  let resIncrease := t1.1
  let resIncreaseTotal := t1.2.1
  let L2breakdown := t1.2.2.1
  let brk1 := t1.2.2.2
  if brk1 then
    { s with
      r2 := r2
      rNorm := rNorm
      r0Norm := r0Norm
      maxrx := maxrx
      maxrr := maxrr
      heavy_quark_res := heavy_quark_res
      resIncrease := resIncrease
      resIncreaseTotal := resIncreaseTotal
      L2breakdown := L2breakdown
      rSloppy := rSloppy
      brk := true }
  else
    let t2 : ℚ × Bool × ℤ × Bool :=
      if use_hq = true ∧ L2breakdown = true then
        let delta : ℚ := 0
        let heavy_quark_restart := true
        if heavy_quark_res > s.heavy_quark_res_old then
          let hqresIncrease := s.hqresIncrease + 1
          if hqresIncrease > hqmaxresIncrease then
            (delta, heavy_quark_restart, hqresIncrease, true)
          else (delta, heavy_quark_restart, hqresIncrease, false)
        else (delta, heavy_quark_restart, s.hqresIncrease, false)
      else (s.delta, s.heavy_quark_restart, s.hqresIncrease, false)
    let delta := t2.1
    let heavy_quark_restart := t2.2.1
    let hqresIncrease := t2.2.2.1
    let brk2 := t2.2.2.2
    if brk2 then
      { s with
        r2 := r2
        rNorm := rNorm
        r0Norm := r0Norm
        maxrx := maxrx
        maxrr := maxrr
        heavy_quark_res := heavy_quark_res
        resIncrease := resIncrease
        resIncreaseTotal := resIncreaseTotal
        L2breakdown := L2breakdown
        delta := delta
        heavy_quark_restart := heavy_quark_restart
        hqresIncrease := hqresIncrease
        rSloppy := rSloppy
        brk := true }
    else
      let t3 : Vec × Bool × ℚ :=
        if use_hq = true ∧ heavy_quark_restart = true then (rSloppy, false, s.beta)
        else
          let rp := divrQ (cDotProduct rSloppy s.p) r2
          let p := caxpy (negQ rp) rSloppy s.p
          let beta := r2 / s.r2_old
          (xpay rSloppy beta p, heavy_quark_restart, beta)
      { r2 := r2
        r2_old := s.r2_old
        rNorm := rNorm
        r0Norm := r0Norm
        maxrx := maxrx
        maxrr := maxrr
        delta := delta
        resIncrease := resIncrease
        resIncreaseTotal := resIncreaseTotal
        hqresIncrease := hqresIncrease
        heavy_quark_res := heavy_quark_res
        heavy_quark_res_old := heavy_quark_res
        L2breakdown := L2breakdown
        heavy_quark_restart := t3.2.1
        beta := t3.2.2
        rSloppy := rSloppy
        p := t3.1
        steps_since_reliable := 0
        rUpdate := s.rUpdate + 1
        brk := false }

end ReliableBranch

/-- C1: in the embedded reliable-update branch the residual-increase test is
dead code.  The source refreshes `r0Norm = sqrt(r2)` (line 406, and line 400
in the ALTRELIABLE variant) before the check `sqrt(r2) > r0Norm && updateX`
(line 414), so the comparison is between the freshly recomputed residual norm
and itself: for every input state, `resIncrease` leaves the branch equal to
`0`, `resIncreaseTotal` is never incremented, and the only `break` that can
fire is the heavy-quark one — the claimed increase/abort behaviour never
occurs. -/
theorem C1_residual_increase_dead (use_hq : Bool)
    (maxResIncrease maxResIncreaseTotal hqmaxresIncrease : ℤ)
    (sqrtFn : ℚ → ℚ) (updateX : Bool) (rFresh : Vec) (freshR2 hqNewZ : ℚ)
    (s : RelSt) :
    (reliableBranch use_hq maxResIncrease maxResIncreaseTotal hqmaxresIncrease
        sqrtFn updateX rFresh freshR2 hqNewZ s).resIncrease = 0 ∧
    (reliableBranch use_hq maxResIncrease maxResIncreaseTotal hqmaxresIncrease
        sqrtFn updateX rFresh freshR2 hqNewZ s).resIncreaseTotal = s.resIncreaseTotal ∧
    ((reliableBranch use_hq maxResIncrease maxResIncreaseTotal hqmaxresIncrease
        sqrtFn updateX rFresh freshR2 hqNewZ s).brk = true → use_hq = true) := by
  have hc : ¬(sqrtFn freshR2 > sqrtFn freshR2 ∧ updateX = true) := fun h => lt_irrefl _ h.1
  refine ⟨?_, ?_, ?_⟩
  · simp only [reliableBranch, hc, if_false]
    simp [apply_ite RelSt.resIncrease]
  · simp only [reliableBranch, hc, if_false]
    simp [apply_ite RelSt.resIncreaseTotal]
  · by_cases h2 : use_hq = true ∧ s.L2breakdown = true
    · intro _
      exact h2.1
    · simp only [reliableBranch, hc, if_false]
      simp [h2]

/-- C4 counterexample: with the configured `max_res_increase = 5` and the
heavy-quark residual in use, the code's abort threshold `hqmaxresIncrease`
equals `maxResIncrease + 1 = 0 + 1 = 1`, not `max_res_increase + 1 = 6` as
the claim states (`maxResIncrease` is forced to `0` in heavy-quark mode,
line 247). -/
theorem C4_hqmax_cex :
    hqmaxresIncreaseOf true 5 = 1 ∧ hqmaxresIncreaseOf true 5 ≠ 5 + 1 := by
  decide

/-- C4 (amended): in single-RHS heavy-quark mode after an L2 breakdown,
a reliable update disables further reliable updates by setting `delta = 0`
and (when the loop is not exited) restarts the search direction with
`p ← r_sloppy`; if the heavy-quark residual grows, `hqresIncrease` is
incremented and the solver breaks out of the loop once it exceeds
`hqmaxresIncrease = 1` — one tolerated growth, regardless of the configured
`max_res_increase` (which `maxResIncrease = 0` overrides in heavy-quark
mode). -/
theorem C4_hq_breakdown_amended (pmax maxResIncreaseTotal : ℤ)
    (sqrtFn : ℚ → ℚ) (updateX : Bool) (rFresh : Vec) (freshR2 hqNewZ : ℚ)
    (s : RelSt) (hbd : s.L2breakdown = true)
    (hgrow : s.heavy_quark_res_old < sqrtFn hqNewZ) :
    hqmaxresIncreaseOf true pmax = 1 ∧
    (reliableBranch true (maxResIncreaseOf true pmax) maxResIncreaseTotal
        (hqmaxresIncreaseOf true pmax) sqrtFn updateX rFresh freshR2 hqNewZ
        s).delta = 0 ∧
    (reliableBranch true (maxResIncreaseOf true pmax) maxResIncreaseTotal
        (hqmaxresIncreaseOf true pmax) sqrtFn updateX rFresh freshR2 hqNewZ
        s).hqresIncrease = s.hqresIncrease + 1 ∧
    ((reliableBranch true (maxResIncreaseOf true pmax) maxResIncreaseTotal
        (hqmaxresIncreaseOf true pmax) sqrtFn updateX rFresh freshR2 hqNewZ
        s).brk = true ↔ 1 < s.hqresIncrease + 1) ∧
    (s.hqresIncrease + 1 ≤ 1 →
      (reliableBranch true (maxResIncreaseOf true pmax) maxResIncreaseTotal
        (hqmaxresIncreaseOf true pmax) sqrtFn updateX rFresh freshR2 hqNewZ
        s).p = rFresh) := by
  have hc : ¬(sqrtFn freshR2 > sqrtFn freshR2 ∧ updateX = true) := fun h => lt_irrefl _ h.1
  have hmax : hqmaxresIncreaseOf true pmax = 1 := by
    simp [hqmaxresIncreaseOf, maxResIncreaseOf]
  refine ⟨hmax, ?_, ?_, ?_, ?_⟩
  · by_cases hgt : (1 : ℤ) < s.hqresIncrease + 1 <;>
      simp [reliableBranch, hc, hmax, hbd, hgrow, hgt]
  · by_cases hgt : (1 : ℤ) < s.hqresIncrease + 1 <;>
      simp [reliableBranch, hc, hmax, hbd, hgrow, hgt]
  · by_cases hgt : (1 : ℤ) < s.hqresIncrease + 1 <;>
      simp [reliableBranch, hc, hmax, hbd, hgrow, hgt]
  · intro hle
    have hgt : ¬((1 : ℤ) < s.hqresIncrease + 1) := by omega
    simp [reliableBranch, hc, hmax, hbd, hgrow, hgt]

/-- The rational square root of `4` is `2` (used to instantiate theorems at
concrete states). -/
theorem ratSqrtFour : Rat.sqrt 4 = 2 := by
  have h := Rat.sqrt_eq (2 : ℚ)
  rw [show (2 : ℚ) * 2 = 4 by norm_num] at h
  rw [h]
  norm_num

/-- Concrete single-RHS solver state used to instantiate the amended C4
theorem: heavy-quark mode after an L2 breakdown, no prior heavy-quark
residual increases. -/
def C4state : RelSt where
  r2 := 4
  r2_old := 4
  rNorm := 2
  r0Norm := 1
  maxrx := 2
  maxrr := 2
  delta := 1 / 10
  resIncrease := 0
  resIncreaseTotal := 0
  hqresIncrease := 0
  heavy_quark_res := 3
  heavy_quark_res_old := 1
  L2breakdown := true
  heavy_quark_restart := false
  beta := 1
  rSloppy := [((1 : ℚ), (0 : ℚ))]
  p := [((2 : ℚ), (0 : ℚ))]
  steps_since_reliable := 3
  rUpdate := 0
  brk := false

/-- C4 witness: the amended theorem instantiated at `C4state` with the
configured `max_res_increase = 5`, recomputed `r2 = 4` and heavy-quark kernel
value `4` (so the heavy-quark residual grows from `1` to `√4 = 2`). -/
theorem C4_hq_breakdown_amended_witness :
    C4state.L2breakdown = true ∧
    C4state.heavy_quark_res_old < Rat.sqrt 4 ∧
    (hqmaxresIncreaseOf true 5 = 1 ∧
     (reliableBranch true (maxResIncreaseOf true 5) 10 (hqmaxresIncreaseOf true 5)
        Rat.sqrt false [((1 : ℚ), (0 : ℚ))] 4 4 C4state).delta = 0 ∧
     (reliableBranch true (maxResIncreaseOf true 5) 10 (hqmaxresIncreaseOf true 5)
        Rat.sqrt false [((1 : ℚ), (0 : ℚ))] 4 4 C4state).hqresIncrease =
          C4state.hqresIncrease + 1 ∧
     ((reliableBranch true (maxResIncreaseOf true 5) 10 (hqmaxresIncreaseOf true 5)
        Rat.sqrt false [((1 : ℚ), (0 : ℚ))] 4 4 C4state).brk = true ↔
          1 < C4state.hqresIncrease + 1) ∧
     (C4state.hqresIncrease + 1 ≤ 1 →
       (reliableBranch true (maxResIncreaseOf true 5) 10 (hqmaxresIncreaseOf true 5)
        Rat.sqrt false [((1 : ℚ), (0 : ℚ))] 4 4 C4state).p = [((1 : ℚ), (0 : ℚ))])) :=
  have hgrow : C4state.heavy_quark_res_old < Rat.sqrt 4 := by
    rw [ratSqrtFour]; norm_num [C4state]
  ⟨rfl, hgrow,
    C4_hq_breakdown_amended 5 10 Rat.sqrt false [((1 : ℚ), (0 : ℚ))] 4 4 C4state rfl hgrow⟩

section BlockResiduals

/-!
### Block path: per-column residual norms and the reliable-update aggregate
(`CG::solve_n`, lines 1174-1191)
-/

/-- Embedding of the per-column accumulation
`H(j,j) = C(0,j)*conj(C(0,j)); for i in 1..n-1: H(j,j) += C(i,j)*conj(C(i,j))`
(`inv_cg_quda.cpp` lines 1182-1184): the complex value `Σ_i C(i,j)·conj(C(i,j))`
accumulated in index order. -/
def blockHjj (n : ℕ) (C : Fin n → Fin n → QC) (j : Fin n) : QC :=
  (List.finRange n).foldl (fun acc i => addQ acc (cmulQ (C i j) (conjQ (C i j)))) (0, 0)

/-- Embedding of the aggregate-`r2` selection, `inv_cg_quda.cpp` lines
1174-1191: under the compile-time min policy (`BLOCKSOLVER_RELIABLE_POLICY_MIN`)
`r2` starts at `1e30` and each column replaces it when smaller
(`if (r2 > H(j,j).real()) r2 = H(j,j).real()`); under the default max policy
`r2` starts at `0.0` and each column replaces it when larger
(`if (r2 < H(j,j).real()) r2 = H(j,j).real()`). -/
def blockAggR2 (policyMin : Bool) (n : ℕ) (C : Fin n → Fin n → QC) : ℚ :=
  (List.finRange n).foldl
    (fun r2 j =>
      let h := (blockHjj n C j).1
      if policyMin then (if r2 > h then h else r2) else (if r2 < h then h else r2))
    (if policyMin then 10 ^ 30 else 0)

end BlockResiduals

/-- Folding `max` over a list only raises the accumulator. -/
theorem foldl_max_init_le (l : List ℚ) (a : ℚ) : a ≤ l.foldl max a := by
  induction l generalizing a with
  | nil => exact le_refl a
  | cons b t ih => exact le_trans (le_max_left a b) (ih (max a b))

/-- Every member of a list is bounded by the `max`-fold over it. -/
theorem foldl_max_mem_le (l : List ℚ) (a x : ℚ) (hx : x ∈ l) : x ≤ l.foldl max a := by
  induction l generalizing a with
  | nil => cases hx
  | cons b t ih =>
    rw [List.foldl_cons]
    rcases List.mem_cons.mp hx with h | h
    · subst h
      exact le_trans (le_max_right a x) (foldl_max_init_le t (max a x))
    · exact ih (max a b) h

/-- The `max`-fold over a list is the initial value or a member. -/
theorem foldl_max_eq_init_or_mem (l : List ℚ) (a : ℚ) :
    l.foldl max a = a ∨ l.foldl max a ∈ l := by
  induction l generalizing a with
  | nil => exact Or.inl rfl
  | cons b t ih =>
    rcases ih (max a b) with h | h
    · rcases max_choice a b with hab | hab
      · exact Or.inl (by rw [List.foldl_cons, h, hab])
      · exact Or.inr (by rw [List.foldl_cons, h, hab]; exact List.mem_cons_self b t)
    · exact Or.inr (List.mem_cons_of_mem b h)

/-- Folding `min` over a list only lowers the accumulator. -/
theorem foldl_min_le_init (l : List ℚ) (a : ℚ) : l.foldl min a ≤ a := by
  induction l generalizing a with
  | nil => exact le_refl a
  | cons b t ih => exact le_trans (ih (min a b)) (min_le_left a b)

/-- The `min`-fold over a list is bounded by every member. -/
theorem foldl_min_le_mem (l : List ℚ) (a x : ℚ) (hx : x ∈ l) : l.foldl min a ≤ x := by
  induction l generalizing a with
  | nil => cases hx
  | cons b t ih =>
    rw [List.foldl_cons]
    rcases List.mem_cons.mp hx with h | h
    · subst h
      exact le_trans (foldl_min_le_init t (min a x)) (min_le_right a x)
    · exact ih (min a b) h

/-- The `min`-fold over a list is the initial value or a member. -/
theorem foldl_min_eq_init_or_mem (l : List ℚ) (a : ℚ) :
    l.foldl min a = a ∨ l.foldl min a ∈ l := by
  induction l generalizing a with
  | nil => exact Or.inl rfl
  | cons b t ih =>
    rcases ih (min a b) with h | h
    · rcases min_choice a b with hab | hab
      · exact Or.inl (by rw [List.foldl_cons, h, hab])
      · exact Or.inr (by rw [List.foldl_cons, h, hab]; exact List.mem_cons_self b t)
    · exact Or.inr (List.mem_cons_of_mem b h)

/-- The branchy accumulation of the source is `max`. -/
theorem ite_lt_eq_max (a b : ℚ) : (if a < b then b else a) = max a b := by
  rcases le_or_lt b a with h | h
  · simp [not_lt.mpr h, max_eq_left h]
  · simp [h, max_eq_right h.le]

/-- The branchy accumulation of the source (min policy) is `min`. -/
theorem ite_gt_eq_min (a b : ℚ) : (if a > b then b else a) = min a b := by
  rcases le_or_lt a b with h | h
  · simp [not_lt.mpr h, min_eq_left h]
  · simp [h, min_eq_right h.le]

/-- The real part of a componentwise `addQ`-fold is the sum of real parts. -/
theorem fst_foldl_addQ (l : List QC) (z : QC) :
    (l.foldl addQ z).1 = z.1 + (l.map Prod.fst).sum := by
  induction l generalizing z with
  | nil => simp
  | cons b t ih => simp [ih, addQ]; ring

/-- The per-column value is the squared column norm of `C`. -/
theorem blockHjj_eq_sum (n : ℕ) (C : Fin n → Fin n → QC) (j : Fin n) :
    (blockHjj n C j).1 = ∑ i, ((C i j).1 ^ 2 + (C i j).2 ^ 2) := by
  have h1 : blockHjj n C j =
      ((List.finRange n).map fun i => cmulQ (C i j) (conjQ (C i j))).foldl addQ (0, 0) := by
    rw [List.foldl_map]
    rfl
  rw [h1, fst_foldl_addQ]
  rw [Fin.sum_univ_def]
  simp only [List.map_map]
  have h2 : ∀ i : Fin n,
      (Prod.fst ∘ fun i => cmulQ (C i j) (conjQ (C i j))) i =
        (fun i => (C i j).1 ^ 2 + (C i j).2 ^ 2) i := by
    intro i
    simp [cmulQ, conjQ]
    ring
  rw [List.map_congr_left fun i _ => h2 i]
  simp

/-- Each squared column norm is nonnegative. -/
theorem blockHjj_nonneg (n : ℕ) (C : Fin n → Fin n → QC) (j : Fin n) :
    0 ≤ (blockHjj n C j).1 := by
  rw [blockHjj_eq_sum]
  exact Finset.sum_nonneg fun i _ => by positivity

/-- The max-policy aggregate is a `max`-fold over the column norms. -/
theorem blockAggR2_max_eq_fold (n : ℕ) (C : Fin n → Fin n → QC) :
    blockAggR2 false n C =
      ((List.finRange n).map fun j => (blockHjj n C j).1).foldl max 0 := by
  rw [List.foldl_map]
  simp only [blockAggR2, Bool.false_eq_true, if_false]
  exact List.foldl_ext _ _ _ fun a j _ => ite_lt_eq_max a (blockHjj n C j).1

/-- The min-policy aggregate is a `min`-fold over the column norms. -/
theorem blockAggR2_min_eq_fold (n : ℕ) (C : Fin n → Fin n → QC) :
    blockAggR2 true n C =
      ((List.finRange n).map fun j => (blockHjj n C j).1).foldl min (10 ^ 30) := by
  rw [List.foldl_map]
  simp only [blockAggR2, eq_self_iff_true, if_true]
  exact List.foldl_ext _ _ _ fun a j _ => ite_gt_eq_min a (blockHjj n C j).1

/-- Column factor used in the C6 counterexample: a single column whose squared
norm `4e30` exceeds the min-policy fold's sentinel initial value `1e30`. -/
def C6cex : Fin 1 → Fin 1 → QC := fun _ _ => ((2 * 10 ^ 15 : ℚ), (0 : ℚ))

/-- C6 counterexample: with one column of squared norm `4e30`, the min-policy
aggregate `r2` is the sentinel initial value `1e30`, not the minimum of the
per-column squared norms (`4e30`) as the claim states. -/
theorem C6_min_policy_cex :
    (blockHjj 1 C6cex 0).1 = 4 * 10 ^ 30 ∧
    blockAggR2 true 1 C6cex = 10 ^ 30 ∧
    blockAggR2 true 1 C6cex ≠ (blockHjj 1 C6cex 0).1 := by
  have h1 : List.finRange 1 = [0] := by decide
  refine ⟨?_, ?_, ?_⟩ <;>
    norm_num [blockHjj, blockAggR2, C6cex, cmulQ, conjQ, addQ, h1]

/-- C6 (amended): for every block state with at least one column, (a) each
per-column squared residual norm equals `Σ_i |C(i,j)|²`; (b) under the max
policy the aggregate `r2` is exactly the maximum of the per-column norms
(it bounds them and is attained); (c) under the min policy the aggregate is
`min(1e30, min_j ‖r_j‖²)`: it is bounded by the sentinel `1e30` and by every
column norm, and equals the sentinel or one of the column norms — the claimed
"minimum across columns" holds only when some column norm is at most `1e30`. -/
theorem C6_block_r2_amended (n : ℕ) (hn : 0 < n) (C : Fin n → Fin n → QC) :
    (∀ j, (blockHjj n C j).1 = ∑ i, ((C i j).1 ^ 2 + (C i j).2 ^ 2)) ∧
    (∀ j, (blockHjj n C j).1 ≤ blockAggR2 false n C) ∧
    (∃ j, blockAggR2 false n C = (blockHjj n C j).1) ∧
    blockAggR2 true n C ≤ 10 ^ 30 ∧
    (∀ j, blockAggR2 true n C ≤ (blockHjj n C j).1) ∧
    (blockAggR2 true n C = 10 ^ 30 ∨
      ∃ j, blockAggR2 true n C = (blockHjj n C j).1) := by
  refine ⟨blockHjj_eq_sum n C, ?_, ?_, ?_, ?_, ?_⟩
  · intro j
    rw [blockAggR2_max_eq_fold]
    exact foldl_max_mem_le _ _ _ (List.mem_map_of_mem _ (List.mem_finRange j))
  · rw [blockAggR2_max_eq_fold]
    rcases foldl_max_eq_init_or_mem
        ((List.finRange n).map fun j => (blockHjj n C j).1) 0 with h | h
    · have hmem := foldl_max_mem_le ((List.finRange n).map fun j => (blockHjj n C j).1) 0
        ((blockHjj n C ⟨0, hn⟩).1) (List.mem_map_of_mem _ (List.mem_finRange ⟨0, hn⟩))
      rw [h] at hmem
      rw [h]
      exact ⟨⟨0, hn⟩, (le_antisymm hmem (blockHjj_nonneg n C ⟨0, hn⟩)).symm⟩
    · rcases List.mem_map.mp h with ⟨j, _, hj⟩
      exact ⟨j, hj.symm⟩
  · rw [blockAggR2_min_eq_fold]
    exact foldl_min_le_init _ _
  · intro j
    rw [blockAggR2_min_eq_fold]
    exact foldl_min_le_mem _ _ _ (List.mem_map_of_mem _ (List.mem_finRange j))
  · rw [blockAggR2_min_eq_fold]
    rcases foldl_min_eq_init_or_mem
        ((List.finRange n).map fun j => (blockHjj n C j).1) (10 ^ 30) with h | h
    · exact Or.inl h
    · rcases List.mem_map.mp h with ⟨j, _, hj⟩
      exact Or.inr ⟨j, hj.symm⟩

/-- Column factor (all-ones) used in the C6 witness. -/
def C6w : Fin 2 → Fin 2 → QC := fun _ _ => ((1 : ℚ), (0 : ℚ))

/-- C6 witness: the amended theorem instantiated at a 2-column block with unit
entries; the max-policy aggregate is attained by a column. -/
theorem C6_block_r2_amended_witness :
    (0 : ℕ) < 2 ∧ ∃ j, blockAggR2 false 2 C6w = (blockHjj 2 C6w j).1 :=
  ⟨by decide, (C6_block_r2_amended 2 (by decide) C6w).2.2.1⟩

section EntryGuards

/-!
### Entry guards and dispatch (`CG::operator()` preamble, `CG::solve_n`
preamble, `CG::solve`)
-/

/-- Reported outcome of the single-RHS solver: the solution field, the
reported residuals, the number of loop iterations performed and the number of
operator applications issued after the guard. -/
structure CGResult where
  x : Vec
  true_res : ℚ
  true_res_hq : ℚ
  iter : ℕ
  matApps : ℕ

/-- Embedding of the zero-source guard at the top of `CG::operator()`,
`inv_cg_quda.cpp` lines 103-114: `b2 = norm2(b)`; if `b2 == 0` and null-vector
computation is disabled, return immediately with `x = b`,
`param.true_res = 0`, `param.true_res_hq = 0` — no iteration is performed
and the operator is never applied.  The argument `rest` stands for the
result of the remainder of the function (lines 116-534), which runs only
when the guard does not fire. -/
def cgZeroSourceGuard (compute_null_vector : Bool) (b : Vec) (rest : CGResult) :
    CGResult :=
  let b2 := norm2 b
  if b2 = 0 ∧ compute_null_vector = false then
    { x := b, true_res := 0, true_res_hq := 0, iter := 0, matApps := 0 }
  else rest

/-- Modelled from the spec: the `stopping()` helper lives outside `src/lib`
(only its call sites are in the source); per the spec, the L2 stopping
threshold is `stop = tol² · ‖b‖²`. -/
def stopping (tol b2 : ℚ) : ℚ := tol ^ 2 * b2

/-- Embedding of the initialisation of the stopping threshold in
`CG::operator()`: the zero-source guard (lines 107-114), the initial residual
`r = b − A x` with `r2 = xmyNorm(b, r)` (lines 173-174), the replacement
`if (b2 == 0) b2 = r2` (lines 175-177), and `stop = stopping(tol, b2, ...)`
(line 221).  Returns `none` when the guard fired (no threshold is computed),
otherwise the computed `stop`. -/
def cgInitStop (compute_null_vector : Bool) (A : Vec → Vec) (x b : Vec)
    (tol : ℚ) : Option ℚ :=
  let b2 := norm2 b
  if b2 = 0 ∧ compute_null_vector = false then none
  else
    let r2 := norm2 (subVec b (A x))
    let b2 := if b2 = 0 then r2 else b2
    some (stopping tol b2)

/-- The residual-type bitset: which of the L2 and heavy-quark criteria are
requested (`QUDA_L2_RELATIVE_RESIDUAL`, `QUDA_HEAVY_QUARK_RESIDUAL`). -/
structure ResidualType where
  l2 : Bool
  heavy_quark : Bool

/-- Outcome of the entry checks of the block solver `CG::solve_n`. -/
inductive BlockEntry
  | fatalZeroSource : BlockEntry
  | fatalHeavyQuark : BlockEntry
  | mainLoop : BlockEntry
deriving DecidableEq

/-- Embedding of the entry checks of the block solver `CG::solve_n`,
`inv_cg_quda.cpp`: the per-source zero-norm check (lines 705-716, fatal via
`errorQuda`) and the heavy-quark-residual check (lines 912-914, fatal via
`errorQuda`).  Both precede the iteration loop, which starts at line 1024:
a fatal entry outcome means no iteration is ever performed. -/
def solve_n_entry (n : ℕ) (b : Fin n → Vec) (residual_type : ResidualType) :
    BlockEntry :=
  if (List.finRange n).any (fun i => decide (norm2 (b i) = 0)) then
    .fatalZeroSource
  else if residual_type.heavy_quark then .fatalHeavyQuark
  else .mainLoop

/-- Modelled from the spec: `QUDA_MAX_BLOCK_SRC` is defined in a header
outside `src/lib` (the source only uses it to dimension the per-source arrays
and in the dispatcher's bound check); the spec's supported set
`{1..16, 24, 32, 48, 64}` has maximum 64, so the bound is taken to be 64. -/
def QUDA_MAX_BLOCK_SRC : ℤ := 64

/-- Outcome of the top-level block dispatcher `CG::solve`: either the
monomorphized block core `solve_n<n>` is invoked, or the host's fatal-error
hook (`errorQuda`) fires and no solver path runs. -/
inductive BlockDispatch
  | run : ℤ → BlockDispatch
  | fatal : BlockDispatch
deriving DecidableEq

/-- Embedding of `CG::solve`, `inv_cg_quda.cpp` lines 1547-1583 (BLOCKSOLVER
build): fatal if `num_src > QUDA_MAX_BLOCK_SRC` (line 1553); otherwise the
switch on `num_src` invokes `solve_n<n>` for the listed cases and is fatal on
the default. -/
def CGsolve (num_src : ℤ) : BlockDispatch :=
  if num_src > QUDA_MAX_BLOCK_SRC then .fatal
  else if num_src = 1 then .run 1
  else if num_src = 2 then .run 2
  else if num_src = 3 then .run 3
  else if num_src = 4 then .run 4
  else if num_src = 5 then .run 5
  else if num_src = 6 then .run 6
  else if num_src = 7 then .run 7
  else if num_src = 8 then .run 8
  else if num_src = 9 then .run 9
  else if num_src = 10 then .run 10
  else if num_src = 11 then .run 11
  else if num_src = 12 then .run 12
  else if num_src = 13 then .run 13
  else if num_src = 14 then .run 14
  else if num_src = 15 then .run 15
  else if num_src = 16 then .run 16
  else if num_src = 24 then .run 24
  else if num_src = 32 then .run 32
  else if num_src = 48 then .run 48
  else if num_src = 64 then .run 64
  else .fatal

/-- The `num_src` values for which `CG::solve` has a `solve_n<n>` case. -/
def supportedNumSrc : List ℤ :=
  [1, 2, 3, 4, 5, 6, 7, 8, 9, 10, 11, 12, 13, 14, 15, 16, 24, 32, 48, 64]

end EntryGuards

/-- C7: in the single-RHS path, when `‖b‖² = 0` and null-vector computation is
disabled, the solver returns immediately with `x` overwritten by `b`,
`true_res = 0` (and `true_res_hq = 0`), zero loop iterations performed and no
operator application — the degenerate input is non-fatal. -/
theorem C7_zero_source_early_return (compute_null_vector : Bool) (b : Vec)
    (rest : CGResult) (hb : norm2 b = 0) (hn : compute_null_vector = false) :
    (cgZeroSourceGuard compute_null_vector b rest).x = b ∧
    (cgZeroSourceGuard compute_null_vector b rest).true_res = 0 ∧
    (cgZeroSourceGuard compute_null_vector b rest).true_res_hq = 0 ∧
    (cgZeroSourceGuard compute_null_vector b rest).iter = 0 ∧
    (cgZeroSourceGuard compute_null_vector b rest).matApps = 0 := by
  simp [cgZeroSourceGuard, hb, hn]

/-- C7 witness: the guard instantiated at the zero field with an arbitrary
nonzero remainder result. -/
theorem C7_zero_source_early_return_witness :
    norm2 [((0 : ℚ), (0 : ℚ))] = 0 ∧
    (cgZeroSourceGuard false [((0 : ℚ), (0 : ℚ))]
        { x := [((5 : ℚ), (0 : ℚ))], true_res := 1, true_res_hq := 1,
          iter := 7, matApps := 9 }).x = [((0 : ℚ), (0 : ℚ))] :=
  ⟨by norm_num [norm2],
    (C7_zero_source_early_return false [((0 : ℚ), (0 : ℚ))]
      { x := [((5 : ℚ), (0 : ℚ))], true_res := 1, true_res_hq := 1,
        iter := 7, matApps := 9 } (by norm_num [norm2]) rfl).1⟩

/-- C9: in the single-RHS path with `‖b‖² = 0` but null-vector computation
enabled (so the early return is not taken), `b2` is replaced by the initial
residual norm `‖b − A x₀‖²`, and the stopping threshold becomes
`stop = tol² · ‖b − A x₀‖²`, relative to the initial residual rather than to
the zero right-hand side. -/
theorem C9_null_vector_stop (A : Vec → Vec) (x b : Vec) (tol : ℚ)
    (hb : norm2 b = 0) :
    cgInitStop true A x b tol = some (tol ^ 2 * norm2 (subVec b (A x))) := by
  simp [cgInitStop, hb, stopping]

/-- C9 witness: identity operator, `x₀` a unit field and `b = 0`; the
threshold is computed from the initial residual `‖0 − x₀‖² = 1`. -/
theorem C9_null_vector_stop_witness :
    norm2 [((0 : ℚ), (0 : ℚ))] = 0 ∧
    cgInitStop true (fun v => v) [((1 : ℚ), (0 : ℚ))] [((0 : ℚ), (0 : ℚ))] 3 =
      some (3 ^ 2 *
        norm2 (subVec [((0 : ℚ), (0 : ℚ))] ((fun v => v) [((1 : ℚ), (0 : ℚ))]))) :=
  ⟨by norm_num [norm2],
    C9_null_vector_stop (fun v => v) [((1 : ℚ), (0 : ℚ))] [((0 : ℚ), (0 : ℚ))] 3
      (by norm_num [norm2])⟩

/-- C10: in the block path, requesting the heavy-quark residual is a fatal
error raised before the first iteration: with nonzero sources, the entry
checks of `solve_n` end in the heavy-quark fatal error, so the block solver
supports only the L2 criterion. -/
theorem C10_block_hq_fatal (n : ℕ) (b : Fin n → Vec) (rt : ResidualType)
    (hq : rt.heavy_quark = true) (hb : ∀ i, norm2 (b i) ≠ 0) :
    solve_n_entry n b rt = .fatalHeavyQuark := by
  have hz : ((List.finRange n).any fun i => decide (norm2 (b i) = 0)) = false := by
    simp only [List.any_eq_false, decide_eq_true_eq]
    intro i _
    exact hb i
  simp [solve_n_entry, hz, hq]

/-- C10 witness: a single nonzero source with the heavy-quark bit set. -/
theorem C10_block_hq_fatal_witness :
    (∀ i : Fin 1, norm2 [((1 : ℚ), (0 : ℚ))] ≠ 0) ∧
    solve_n_entry 1 (fun _ => [((1 : ℚ), (0 : ℚ))]) ⟨true, true⟩ =
      .fatalHeavyQuark :=
  ⟨fun i => by norm_num [norm2],
    C10_block_hq_fatal 1 (fun _ => [((1 : ℚ), (0 : ℚ))]) ⟨true, true⟩ rfl
      (fun i => by norm_num [norm2])⟩

/-- C8: the top-level block dispatcher invokes the monomorphized block core
`solve_n<n>` exactly for `num_src ∈ {1..16, 24, 32, 48, 64}`, and for every
`num_src` outside this set it signals a fatal usage error and runs no solver
path. -/
theorem C8_dispatch (num_src : ℤ) :
    (CGsolve num_src = .run num_src ↔ num_src ∈ supportedNumSrc) ∧
    (num_src ∉ supportedNumSrc → CGsolve num_src = .fatal) := by
  by_cases hm : num_src ∈ supportedNumSrc
  · have hrun : CGsolve num_src = .run num_src := by
      fin_cases hm <;> decide
    exact ⟨⟨fun _ => hm, fun _ => hrun⟩, fun h => absurd hm h⟩
  · have h1 : num_src ≠ 1 := fun hk => hm (by rw [hk]; decide)
    have h2 : num_src ≠ 2 := fun hk => hm (by rw [hk]; decide)
    have h3 : num_src ≠ 3 := fun hk => hm (by rw [hk]; decide)
    have h4 : num_src ≠ 4 := fun hk => hm (by rw [hk]; decide)
    have h5 : num_src ≠ 5 := fun hk => hm (by rw [hk]; decide)
    have h6 : num_src ≠ 6 := fun hk => hm (by rw [hk]; decide)
    have h7 : num_src ≠ 7 := fun hk => hm (by rw [hk]; decide)
    have h8 : num_src ≠ 8 := fun hk => hm (by rw [hk]; decide)
    have h9 : num_src ≠ 9 := fun hk => hm (by rw [hk]; decide)
    have h10 : num_src ≠ 10 := fun hk => hm (by rw [hk]; decide)
    have h11 : num_src ≠ 11 := fun hk => hm (by rw [hk]; decide)
    have h12 : num_src ≠ 12 := fun hk => hm (by rw [hk]; decide)
    have h13 : num_src ≠ 13 := fun hk => hm (by rw [hk]; decide)
    have h14 : num_src ≠ 14 := fun hk => hm (by rw [hk]; decide)
    have h15 : num_src ≠ 15 := fun hk => hm (by rw [hk]; decide)
    have h16 : num_src ≠ 16 := fun hk => hm (by rw [hk]; decide)
    have h24 : num_src ≠ 24 := fun hk => hm (by rw [hk]; decide)
    have h32 : num_src ≠ 32 := fun hk => hm (by rw [hk]; decide)
    have h48 : num_src ≠ 48 := fun hk => hm (by rw [hk]; decide)
    have h64 : num_src ≠ 64 := fun hk => hm (by rw [hk]; decide)
    have hfatal : CGsolve num_src = .fatal := by
      by_cases hgt : num_src > QUDA_MAX_BLOCK_SRC
      · unfold CGsolve
        rw [if_pos hgt]
      · unfold CGsolve
        rw [if_neg hgt, if_neg h1, if_neg h2, if_neg h3, if_neg h4, if_neg h5,
          if_neg h6, if_neg h7, if_neg h8, if_neg h9, if_neg h10, if_neg h11,
          if_neg h12, if_neg h13, if_neg h14, if_neg h15, if_neg h16,
          if_neg h24, if_neg h32, if_neg h48, if_neg h64]
    refine ⟨⟨fun h => ?_, fun h => absurd h hm⟩, fun _ => hfatal⟩
    rw [hfatal] at h
    exact absurd h (by simp)

/-- C8 witness: a supported and an unsupported block size. -/
theorem C8_dispatch_witness :
    (24 : ℤ) ∈ supportedNumSrc ∧ CGsolve 24 = .run 24 ∧
    (17 : ℤ) ∉ supportedNumSrc ∧ CGsolve 17 = .fatal :=
  ⟨by decide, (C8_dispatch 24).1.mpr (by decide), by decide,
    (C8_dispatch 17).2 (by decide)⟩
